import Mathlib

/-!
Verification development for the tempo/transport synchronization subsystem
of the meshroom repository: the clock model (fallback virtual clock and the
native-adapter read path), the WAN state extrapolator, the sync coordinator's
relay handling and reconnect logic, and the room-multiplexing Sync Plane
Server embedded in the API process.

Numbers produced by JSON parsing and clock arithmetic are modelled as exact
rationals; a JSON-parsed numeric field that may be absent or non-finite
(JSON.parse can yield Infinity from an overflowing literal) is modelled by
the type JsNum below wrapped in Option.
-/

namespace Meshroom

/-- A numeric value as produced by JSON.parse: a finite number (exact
rational) or an infinity (JSON.parse of an overflowing literal such as
1e999 yields Infinity; NaN is not producible from JSON text). -/
inductive JsNum where
  | fin (q : ℚ)
  | posInf
  | negInf
deriving DecidableEq

/-- Number.isFinite on a JsNum. -/
def JsNum.isFinite : JsNum → Bool
  | .fin _ => true
  | _ => false

/-- Truncation toward zero, as JavaScript's float-to-integer truncation. -/
def jsTrunc (q : ℚ) : ℤ :=
  if 0 ≤ q then ⌊q⌋ else ⌈q⌉

/-- JavaScript's `%` operator on numbers (fmod): remainder of truncated
division, sign following the dividend. -/
def jsFmod (x y : ℚ) : ℚ :=
  x - y * (jsTrunc (x / y) : ℚ)

/-- JavaScript's Math.round: round half toward positive infinity. -/
def jsRound (q : ℚ) : ℤ :=
  ⌊q + 1/2⌋

/-- Transport state of the shared clock (source type TransportState). -/
inductive Transport where
  | playing
  | paused
  | stopped
deriving DecidableEq

/-- Sync mode of the coordinator (source type SyncMode). -/
inductive SyncMode where
  | LINK_LAN
  | LINK_WAN
  | MIDI
deriving DecidableEq

/-- Role of a sync participant (source type SyncRole). -/
inductive SyncRole where
  | master
  | peer
deriving DecidableEq

/-- The clock snapshot produced by a Clock Engine read
(source type LinkState). -/
structure LinkState where
  tempo : ℚ
  beat : ℚ
  phase : ℚ
  quantum : ℚ
  numPeers : ℚ
deriving DecidableEq

/-- The cached remote clock snapshot of a WAN peer
(source type WanState). -/
structure WanState where
  tempo : ℚ
  beat : ℚ
  phase : ℚ
  quantum : ℚ
  transport : Transport
  receivedAt : ℚ
deriving DecidableEq

/-- safeNumber from sync-bridge/src/index.ts, restricted to the
numeric-or-absent field values a parsed relay message carries: a finite
number passes through, anything else (absent field, infinity) yields the
fallback. -/
def safeNumber (value : Option JsNum) (fallback : ℚ) : ℚ :=
  match value with
  | some (.fin q) => q
  | _ => fallback

/-! ## Fallback virtual clock (createFallbackLink) -/

/-- Mutable state of the fallback virtual clock closure in
createFallbackLink: tempo, quantum, transport, baseBeat, startAt.
Timestamps are milliseconds (Date.now), modelled as exact rationals. -/
structure Fallback where
  tempo : ℚ
  quantum : ℚ
  transport : Transport
  baseBeat : ℚ
  startAt : ℚ
deriving DecidableEq

/-- Initial fallback clock state (tempo 120, quantum 4, stopped, baseBeat 0,
startAt the creation time). -/
def Fallback.init (t0 : ℚ) : Fallback :=
  { tempo := 120, quantum := 4, transport := .stopped, baseBeat := 0, startAt := t0 }

/-- getBeat of the fallback clock: frozen at baseBeat unless playing,
else baseBeat plus elapsed seconds times tempo/60. -/
def Fallback.getBeat (s : Fallback) (now : ℚ) : ℚ :=
  if s.transport ≠ .playing then s.baseBeat
  else s.baseBeat + ((now - s.startAt) / 1000) * (s.tempo / 60)

/-- getState of the fallback clock. -/
def Fallback.getState (s : Fallback) (now : ℚ) : LinkState :=
  let beat := s.getBeat now
  { tempo := s.tempo, beat := beat, phase := jsFmod beat s.quantum,
    quantum := s.quantum, numPeers := 1 }

/-- setTempo of the fallback clock: clamps to at least 20. -/
def Fallback.setTempo (s : Fallback) (value : ℚ) : Fallback :=
  { s with tempo := max 20 value }

/-- setQuantum of the fallback clock: clamps to at least 1 (no rounding
here; rounding happens only in the local set command handler). -/
def Fallback.setQuantum (s : Fallback) (value : ℚ) : Fallback :=
  { s with quantum := max 1 value }

/-- setTransport of the fallback clock: no-op when unchanged; entering
playing captures the current beat as baseBeat and records startAt := now;
leaving playing freezes baseBeat at the current beat (startAt untouched). -/
def Fallback.setTransport (s : Fallback) (next : Transport) (now : ℚ) : Fallback :=
  if next = s.transport then s
  else if next = .playing then
    { s with baseBeat := s.getBeat now, startAt := now, transport := next }
  else
    { s with baseBeat := s.getBeat now, transport := next }

/-! ## Native adapter read path (createAbletonLinkAdapter.getState) -/

/-- The numeric readings obtainable from the external link object via
readNumber (which yields a finite number or undefined). -/
structure LinkReadings where
  tempo : Option ℚ
  quantum : Option ℚ
  beat : Option ℚ
  phase : Option ℚ
  numPeers : Option ℚ
deriving DecidableEq

/-- getState of the native adapter: each field read from the external link
with a default when the reading is absent; a supplied phase is passed
through unchanged, an absent phase defaults to beat % quantum. -/
def abletonGetState (r : LinkReadings) : LinkState :=
  let tempo := r.tempo.getD 120
  let quantum := r.quantum.getD 4
  let beat := r.beat.getD 0
  let phase := r.phase.getD (jsFmod beat quantum)
  let numPeers := r.numPeers.getD 1
  { tempo := tempo, beat := beat, phase := phase, quantum := quantum,
    numPeers := numPeers }

/-! ## WAN state extrapolator (computeWanState) -/

/-- computeWanState from sync-bridge/src/index.ts: pure dead-reckoning of
the cached remote snapshot at wall time now (milliseconds). -/
def computeWanState (state : WanState) (now : ℚ) : LinkState :=
  if state.transport ≠ .playing then
    { tempo := state.tempo, beat := state.beat, phase := state.phase,
      quantum := state.quantum, numPeers := 1 }
  else
    let elapsed := (now - state.receivedAt) / 1000
    let beat := state.beat + elapsed * (state.tempo / 60)
    { tempo := state.tempo, beat := beat,
      phase := jsFmod (state.phase + elapsed * (state.tempo / 60)) state.quantum,
      quantum := state.quantum, numPeers := 1 }

/-! ## Local set command and WAN inbound handlers of the Sync Coordinator -/

/-- A local `set` command after JSON parsing (source type ClientMessage,
type "set"): optional numeric tempo/quantum and optional transport. -/
structure SetMsg where
  tempo : Option JsNum
  quantum : Option JsNum
  transport : Option Transport
deriving DecidableEq

/-- handleSet from sync-bridge/src/index.ts, acting on the fallback clock:
a finite tempo is forwarded raw (the engine clamps); a finite quantum is
rounded and clamped to at least 1 before the engine clamps again; a present
transport is forwarded. Returns the new engine state and the coordinator's
transport variable. -/
def handleSet (eng : Fallback) (tr : Transport) (m : SetMsg) (now : ℚ) :
    Fallback × Transport :=
  let eng1 := match m.tempo with
    | some (.fin v) => eng.setTempo v
    | _ => eng
  let eng2 := match m.quantum with
    | some (.fin q) => eng1.setQuantum ((max 1 (jsRound q) : ℤ) : ℚ)
    | _ => eng1
  match m.transport with
  | some next => (eng2.setTransport next now, next)
  | none => (eng2, tr)

/-- A relay `state` message as seen by the coordinator's WAN socket
message handler after JSON parsing: the type discriminator and the
optional clock fields. -/
structure RelayMsg where
  type : String
  tempo : Option JsNum
  beat : Option JsNum
  phase : Option JsNum
  quantum : Option JsNum
  transport : Option Transport
deriving DecidableEq

/-- The coordinator's WAN inbound message handler (connectWan message
listener): a `state` message received by a peer-role coordinator is
defaulted field by field via safeNumber (tempo 120, quantum 4, beat 0,
phase beat % quantum, transport "playing" when absent), cached as the
extrapolation snapshot with receivedAt := now, and pushed into the Clock
Engine via its setters; any other message, and every message when the
role is master, leaves everything unchanged. -/
def handleRelayMessage (role : SyncRole) (m : RelayMsg) (eng : Fallback)
    (wan : Option WanState) (tr : Transport) (now : ℚ) :
    Fallback × Option WanState × Transport :=
  if m.type = "state" ∧ role = .peer then
    let tempo := safeNumber m.tempo 120
    let quantum := safeNumber m.quantum 4
    let beat := safeNumber m.beat 0
    let phase := safeNumber m.phase (jsFmod beat quantum)
    let nextTransport := m.transport.getD .playing
    (((eng.setTempo tempo).setQuantum quantum).setTransport nextTransport now,
     some { tempo := tempo, beat := beat, phase := phase, quantum := quantum,
            transport := nextTransport, receivedAt := now },
     nextTransport)
  else (eng, wan, tr)

/-! ## Sync-bridge HTTP health endpoint -/

/-- Body of an HTTP response of the sync-bridge server. -/
structure HealthBody where
  status : String
  link : String
deriving DecidableEq

/-- An HTTP response body of the sync-bridge server: the health body or the
not-found error body. -/
inductive HttpBody where
  | health (b : HealthBody)
  | notFound
deriving DecidableEq

/-- The sync-bridge HTTP request handler (main): /health answers 200 with
status ok and the link field naming the clock in use; everything else is
404. -/
def handleHttp (url : String) (isAvailable : Bool) : ℕ × HttpBody :=
  if url = "/health" then
    (200, .health { status := "ok",
                    link := if isAvailable then "abletonlink" else "fallback" })
  else
    (404, .notFound)

/-! ## Sync Coordinator relay connection lifecycle (closeWan /
scheduleReconnect / connectWan / handleConfigure) -/

/-- The relay-connection-relevant mutable state of the Sync Coordinator:
configuration plus the live reconnect timers (each entry a delay in
milliseconds) and the count of open outbound relay sockets. The source
holds at most one timer handle in the variable reconnectTimer and at most
one socket in wanSocket; timers and sockets are modelled as collections so
that "at most one" is a provable property rather than a typing artefact. -/
structure BridgeNet where
  mode : SyncMode
  role : SyncRole
  room : Option String
  apiUrl : String
  masterKey : String
  timers : List ℕ
  sockets : ℕ
deriving DecidableEq

/-- Initial coordinator state (mode LINK_LAN, role peer, no room, no timer,
no socket). -/
def BridgeNet.init (apiUrl masterKey : String) : BridgeNet :=
  { mode := .LINK_LAN, role := .peer, room := none, apiUrl := apiUrl,
    masterKey := masterKey, timers := [], sockets := 0 }

/-- JavaScript truthiness of the room binding: null or the empty string is
falsy. -/
def roomFalsy : Option String → Bool
  | none => true
  | some r => r = ""

/-- closeWan: cancel any pending reconnect timer and close/drop the
outbound socket. -/
def closeWan (s : BridgeNet) : BridgeNet :=
  { s with timers := [], sockets := 0 }

/-- scheduleReconnect: early-return when a timer is already pending,
otherwise create one timer with the fixed 2000 ms delay. -/
def scheduleReconnect (s : BridgeNet) : BridgeNet :=
  if s.timers = [] then { s with timers := [2000] } else s

/-- connectWan: when not in WAN mode or without a (truthy) room, just
closeWan; otherwise closeWan first (cancelling any timer and socket) and
open one fresh outbound socket. -/
def connectWan (s : BridgeNet) : BridgeNet :=
  if s.mode ≠ .LINK_WAN ∨ roomFalsy s.room then closeWan s
  else { closeWan s with sockets := 1 }

/-- The reconnect timer callback: the timer clears itself, then connectWan
runs. Firing with no pending timer cannot happen and is a no-op. -/
def fireReconnect (s : BridgeNet) : BridgeNet :=
  if s.timers = [] then s else connectWan { s with timers := [] }

/-- A `configure` command (source type ClientMessage, type "configure"). -/
structure ConfigureMsg where
  room : Option String
  role : Option SyncRole
  mode : Option SyncMode
  apiUrl : Option String
  masterKey : Option String
deriving DecidableEq

/-- The assignments of handleConfigure: each field is applied only when
present and truthy (empty strings are falsy). -/
def applyConfigure (s : BridgeNet) (m : ConfigureMsg) : BridgeNet :=
  let s := match m.room with
    | some r => if r = "" then s else { s with room := some r }
    | none => s
  let s := match m.role with
    | some r => { s with role := r }
    | none => s
  let s := match m.mode with
    | some md => { s with mode := md }
    | none => s
  let s := match m.apiUrl with
    | some u => if u = "" then s else { s with apiUrl := u }
    | none => s
  match m.masterKey with
  | some k => if k = "" then s else { s with masterKey := k }
  | none => s

/-- handleConfigure: apply the updates, then (re)connect — connectWan
itself cancels any pending timer and socket first. -/
def handleConfigure (s : BridgeNet) (m : ConfigureMsg) : BridgeNet :=
  connectWan (applyConfigure s m)

/-- Events that drive the relay connection lifecycle. -/
inductive BridgeEvent where
  | socketClosed
  | socketError
  | timerFired
  | configure (m : ConfigureMsg)
deriving DecidableEq

/-- One step of the relay lifecycle: socket close and error both schedule a
reconnect; the timer firing reconnects; configure reconfigures. -/
def bridgeStep (s : BridgeNet) : BridgeEvent → BridgeNet
  | .socketClosed => scheduleReconnect s
  | .socketError => scheduleReconnect s
  | .timerFired => fireReconnect s
  | .configure m => handleConfigure s m

/-- Run of the relay lifecycle from a state through a list of events. -/
def bridgeRun (s : BridgeNet) (es : List BridgeEvent) : BridgeNet :=
  es.foldl bridgeStep s

/-- The resource bound the reconnect logic maintains: at most one pending
timer, every pending timer has the fixed 2000 ms delay, and at most one
outbound socket. -/
def BridgeInv (s : BridgeNet) : Prop :=
  s.timers.length ≤ 1 ∧ (∀ d ∈ s.timers, d = 2000) ∧ s.sockets ≤ 1

/-! ## Sync Plane Server (setupSyncPlane in the API process) -/

/-- Association-list get with JavaScript Map lookup semantics. -/
def alGet {κ α : Type} [DecidableEq κ] : List (κ × α) → κ → Option α
  | [], _ => none
  | (k', v) :: rest, k => if k' = k then some v else alGet rest k

/-- Association-list set with JavaScript Map.set semantics: replace in
place, or append a fresh entry. -/
def alSet {κ α : Type} [DecidableEq κ] : List (κ × α) → κ → α → List (κ × α)
  | [], k, v => [(k, v)]
  | (k', v') :: rest, k, v =>
    if k' = k then (k, v) :: rest else (k', v') :: alSet rest k v

/-- Association-list delete with JavaScript Map.delete semantics. -/
def alRemove {κ α : Type} [DecidableEq κ] : List (κ × α) → κ → List (κ × α)
  | [], _ => []
  | (k', v') :: rest, k => if k' = k then rest else (k', v') :: alRemove rest k

/-- JavaScript Set.add on a duplicate-free membership list (insertion
order preserved, no duplicate inserted). -/
def setAdd (l : List ℕ) (x : ℕ) : List ℕ :=
  if x ∈ l then l else l ++ [x]

/-- Per-connection record of the Sync Plane Server (source type
SyncClient). -/
structure SyncClient where
  room : Option String
  role : Option String
  isMaster : Bool
deriving DecidableEq

/-- A parsed `join` message (source type SyncJoinMessage); fields are
optional because the cast does not validate presence. -/
structure JoinMsg where
  room : Option String
  role : Option String
  masterKey : Option String
deriving DecidableEq

/-- A parsed `state` message (source type SyncStateMessage); numeric
fields may be absent or non-finite, string fields may be absent. -/
structure StateMsg where
  tempo : Option JsNum
  transport : Option String
  mode : Option String
  quantum : Option JsNum
  beat : Option JsNum
  phase : Option JsNum
deriving DecidableEq

/-- An inbound /sync frame after parseMessage: a frame that is not valid
JSON, or is not an object with a string `type`, is malformed; otherwise it
is one of join/state/ping, or carries some other string type. -/
inductive SyncMsg where
  | malformed
  | join (m : JoinMsg)
  | state (m : StateMsg)
  | ping (sentAt : Option JsNum)
  | other (ty : String)
deriving DecidableEq

/-- A message the Sync Plane Server sends to one connection. The stateB
broadcast payload carries the sender's fields verbatim (absent optional
fields stay absent) plus the server timestamp `at`. -/
inductive OutMsg where
  | error (e : String)
  | joined (room : String) (role : String) (isMaster : Bool)
  | stateB (tempo : Option JsNum) (transport : Option String)
      (mode : Option String) (quantum : Option JsNum) (beat : Option JsNum)
      (phase : Option JsNum) (atMs : ℤ)
  | pong (sentAt : ℚ) (serverAt : ℤ)
deriving DecidableEq

/-- State of the Sync Plane Server: the clients map and the room
membership map, connections named by numeric ids. -/
structure ServerState where
  clients : List (ℕ × SyncClient)
  rooms : List (String × List ℕ)
deriving DecidableEq

/-- The empty server. -/
def ServerState.empty : ServerState := { clients := [], rooms := [] }

/-- removeFromRoom: drop the socket from the given room's membership set,
deleting the room entry when it empties; absent room or unknown room is a
no-op. -/
def removeFromRoom (s : ServerState) (socket : ℕ) (room : Option String) :
    ServerState :=
  match room with
  | none => s
  | some r =>
    match alGet s.rooms r with
    | none => s
    | some mem =>
      let mem' := mem.erase socket
      if mem' = [] then { s with rooms := alRemove s.rooms r }
      else { s with rooms := alSet s.rooms r mem' }

/-- Validation of the tempo field: present, finite and positive
(the source rejects on !Number.isFinite(tempo) || tempo <= 0, and an
absent field is not finite). -/
def tempoValid : Option JsNum → Bool
  | some (.fin q) => decide (0 < q)
  | _ => false

/-- Validation of the transport field: present and one of
stopped/playing/paused. -/
def transportValid : Option String → Bool
  | some t => decide (t = "stopped" ∨ t = "playing" ∨ t = "paused")
  | none => false

/-- The mode rejection test: the source writes `state.mode &&
!["LINK_LAN","LINK_WAN","MIDI"].includes(state.mode)`, so an absent mode
and the falsy empty-string mode are both exempt from the membership
check. -/
def modeInvalid : Option String → Bool
  | some m => decide (m ≠ "" ∧ m ≠ "LINK_LAN" ∧ m ≠ "LINK_WAN" ∧ m ≠ "MIDI")
  | none => false

/-- The quantum rejection test: present and (non-finite or not
positive). -/
def quantumInvalid : Option JsNum → Bool
  | none => false
  | some (.fin q) => decide (q ≤ 0)
  | some _ => true

/-- The beat/phase rejection test: present and non-finite. -/
def finiteInvalid : Option JsNum → Bool
  | none => false
  | some (.fin _) => false
  | some _ => true

/-- The join branch of the message handler. -/
def handleJoin (cfgKey : String) (s : ServerState) (id : ℕ) (c : SyncClient)
    (m : JoinMsg) : ServerState × List (ℕ × OutMsg) :=
  match m.room, m.role with
  | some r, some rr =>
    if r = "" ∨ (rr ≠ "master" ∧ rr ≠ "peer") then
      (s, [(id, .error "invalid join payload")])
    else
      let s1 := removeFromRoom s id c.room
      let isM := decide (rr = "master") && decide (m.masterKey = some cfgKey)
      let c' : SyncClient := { room := some r, role := some rr, isMaster := isM }
      let s2 := { s1 with clients := alSet s1.clients id c' }
      let mem := (alGet s2.rooms r).getD []
      let s3 := { s2 with rooms := alSet s2.rooms r (setAdd mem id) }
      (s3, [(id, .joined r rr isM)])
  | _, _ => (s, [(id, .error "invalid join payload")])

/-- The state branch of the message handler: joined-and-master gate, field
validation in source order, then broadcast of the sender's fields verbatim
plus the server timestamp to every member of the sender's room. -/
def handleState (s : ServerState) (id : ℕ) (c : SyncClient) (m : StateMsg)
    (now : ℤ) : ServerState × List (ℕ × OutMsg) :=
  match c.room with
  | none => (s, [(id, .error "not joined")])
  | some r =>
    if c.isMaster = false then (s, [(id, .error "not authorized")])
    else if tempoValid m.tempo = false then (s, [(id, .error "invalid tempo")])
    else if transportValid m.transport = false then
      (s, [(id, .error "invalid transport")])
    else if modeInvalid m.mode then (s, [(id, .error "invalid mode")])
    else if quantumInvalid m.quantum then (s, [(id, .error "invalid quantum")])
    else if finiteInvalid m.beat then (s, [(id, .error "invalid beat")])
    else if finiteInvalid m.phase then (s, [(id, .error "invalid phase")])
    else
      (s, ((alGet s.rooms r).getD []).map
        (fun sock =>
          (sock, .stateB m.tempo m.transport m.mode m.quantum m.beat m.phase now)))

/-- The ping branch of the message handler: finite sentAt is echoed with a
server timestamp; anything else is an error. -/
def handlePing (s : ServerState) (id : ℕ) (sentAt : Option JsNum) (now : ℤ) :
    ServerState × List (ℕ × OutMsg) :=
  match sentAt with
  | some (.fin q) => (s, [(id, .pong q now)])
  | _ => (s, [(id, .error "invalid ping")])

/-- Lookup of the sender's client record before dispatch: a missing record
short-circuits to no reply (the source returns). -/
def withClient (s : ServerState) (id : ℕ)
    (k : SyncClient → ServerState × List (ℕ × OutMsg)) :
    ServerState × List (ℕ × OutMsg) :=
  match alGet s.clients id with
  | none => (s, [])
  | some c => k c

/-- The /sync message handler: malformed frames are answered with an error
before any lookup; join/state/ping dispatch on the type; a frame whose
string type is none of the three falls through every branch and gets no
reply. -/
def handleSyncMessage (cfgKey : String) (s : ServerState) (id : ℕ)
    (msg : SyncMsg) (now : ℤ) : ServerState × List (ℕ × OutMsg) :=
  match msg with
  | .malformed => (s, [(id, .error "invalid message")])
  | .join m => withClient s id (fun c => handleJoin cfgKey s id c m)
  | .state m => withClient s id (fun c => handleState s id c m now)
  | .ping sentAt => withClient s id (fun _ => handlePing s id sentAt now)
  | .other _ => withClient s id (fun _ => (s, []))

/-- The connection handler: register a fresh client record with isMaster
false. A connect event for an id that is already a live connection cannot
occur at runtime (socket objects are fresh); it is modelled as a no-op. -/
def connectSync (s : ServerState) (id : ℕ) : ServerState :=
  if (alGet s.clients id).isSome then s
  else
    { s with clients :=
        alSet s.clients id { room := none, role := none, isMaster := false } }

/-- The close handler: leave the room (dropping an emptied room entry) and
delete the client record. -/
def closeSync (s : ServerState) (id : ℕ) : ServerState :=
  match alGet s.clients id with
  | none => s
  | some c =>
    let s1 := removeFromRoom s id c.room
    { s1 with clients := alRemove s1.clients id }

/-- An event on the Sync Plane Server. -/
inductive SEvent where
  | connect (id : ℕ)
  | message (id : ℕ) (msg : SyncMsg) (now : ℤ)
  | disconnect (id : ℕ)
deriving DecidableEq

/-- One server step (replies discarded; they never feed back into server
state). -/
def serverStep (cfgKey : String) (s : ServerState) : SEvent → ServerState
  | .connect id => connectSync s id
  | .message id msg now => (handleSyncMessage cfgKey s id msg now).1
  | .disconnect id => closeSync s id

/-- Run of the server from the empty state through a list of events. -/
def serverRun (cfgKey : String) (es : List SEvent) : ServerState :=
  es.foldl (serverStep cfgKey) ServerState.empty

/-- The acceptance condition the state handler actually enforces: joined,
master, tempo present finite positive, transport in the enum, mode passing
the truthiness-guarded membership check, quantum finite positive when
present, beat and phase finite when present. -/
def stateAccepted (c : SyncClient) (m : StateMsg) : Bool :=
  c.room.isSome && c.isMaster && tempoValid m.tempo &&
    transportValid m.transport && !modeInvalid m.mode &&
    !quantumInvalid m.quantum && !finiteInvalid m.beat && !finiteInvalid m.phase

/-- The acceptance condition in the words of the specification claim (for
the refinement comparison): joined, master, tempo finite positive,
transport in the enum, mode one of LINK_LAN/LINK_WAN/MIDI when present,
quantum finite positive when present — with no exemption for an
empty-string mode and no condition on beat or phase. -/
def claimStateValid (c : SyncClient) (m : StateMsg) : Bool :=
  c.room.isSome && c.isMaster && tempoValid m.tempo &&
    transportValid m.transport &&
    (match m.mode with
      | none => true
      | some md => decide (md = "LINK_LAN" ∨ md = "LINK_WAN" ∨ md = "MIDI")) &&
    (match m.quantum with
      | none => true
      | some (.fin q) => decide (0 < q)
      | some _ => false)

/-- Structural invariant of the Sync Plane Server, established by all
reachable states: duplicate-free maps and membership sets, agreement
between the clients map and the room membership map in both directions,
and isMaster only ever granted to role "master". -/
structure SInv (s : ServerState) : Prop where
  clientsND : (s.clients.map Prod.fst).Nodup
  roomsND : (s.rooms.map Prod.fst).Nodup
  memND : ∀ r mem, alGet s.rooms r = some mem → mem.Nodup
  inRoom : ∀ id c r, alGet s.clients id = some c → c.room = some r →
    ∃ mem, alGet s.rooms r = some mem ∧ id ∈ mem
  roomOf : ∀ r mem id, alGet s.rooms r = some mem → id ∈ mem →
    ∃ c, alGet s.clients id = some c ∧ c.room = some r
  masterRole : ∀ id c, alGet s.clients id = some c → c.isMaster = true →
    c.role = some "master"

/-- A concrete server trace: connection 0 joins room "studio-1" as master
with the right key, connection 1 joins "studio-1" as peer, connection 2
joins room "other" as peer. -/
def traceC1 : List SEvent :=
  [.connect 0,
   .message 0 (.join ⟨some "studio-1", some "master", some "sekrit"⟩) 10,
   .connect 1,
   .message 1 (.join ⟨some "studio-1", some "peer", none⟩) 11,
   .connect 2,
   .message 2 (.join ⟨some "other", some "peer", none⟩) 12]

/-- The same concrete trace, kept separate for the validation claims. -/
def traceC2 : List SEvent :=
  [.connect 0,
   .message 0 (.join ⟨some "studio-1", some "master", some "sekrit"⟩) 10,
   .connect 1,
   .message 1 (.join ⟨some "studio-1", some "peer", none⟩) 11]

/-- A minimal concrete trace: a single connection and nothing else. -/
def traceC8 : List SEvent := [.connect 0]

/-! ## Theorems -/

/-- Evaluation helper: JavaScript fmod of 0 ≤ x < y is x itself. -/
theorem jsFmod_nonneg_lt (x y : ℚ) (hx : 0 ≤ x) (hy : 0 < y) (hxy : x < y) :
    jsFmod x y = x := by
  have h0 : 0 ≤ x / y := div_nonneg hx hy.le
  have h1 : x / y < 1 := (div_lt_one hy).2 hxy
  have hf : ⌊x / y⌋ = 0 := Int.floor_eq_zero_iff.2 ⟨h0, h1⟩
  simp [jsFmod, jsTrunc, if_pos h0, hf]

/-- C3: the WAN State Extrapolator is a pure function of the cached
snapshot and now: when the cached transport is not playing it returns the
cached tempo, beat, phase and quantum unchanged with numPeers 1; when it
is playing it returns beat = cachedBeat + ((now − receivedAt)/1000)·(tempo/60)
and phase = (cachedPhase + ((now − receivedAt)/1000)·(tempo/60)) mod
quantum, with tempo and quantum unchanged and numPeers 1. -/
theorem computeWanState_extrapolation (w : WanState) (now : ℚ) :
    (w.transport ≠ .playing →
      computeWanState w now =
        { tempo := w.tempo, beat := w.beat, phase := w.phase,
          quantum := w.quantum, numPeers := 1 }) ∧
    (w.transport = .playing →
      computeWanState w now =
        { tempo := w.tempo,
          beat := w.beat + ((now - w.receivedAt) / 1000) * (w.tempo / 60),
          phase := jsFmod
            (w.phase + ((now - w.receivedAt) / 1000) * (w.tempo / 60)) w.quantum,
          quantum := w.quantum, numPeers := 1 }) := by
  constructor <;> intro h <;> simp [computeWanState, h]

/-- Witness for C3, at the spec's own example: tempo 120, quantum 4,
beat 0, phase 0, playing, received at 1000 ms; half a second later the
beat and phase are both 1. -/
theorem computeWanState_extrapolation_witness :
    computeWanState
      { tempo := 120, beat := 0, phase := 0, quantum := 4,
        transport := .playing, receivedAt := 1000 } 1500 =
      { tempo := 120, beat := 1, phase := 1, quantum := 4, numPeers := 1 } := by
  have h := (computeWanState_extrapolation
    { tempo := 120, beat := 0, phase := 0, quantum := 4,
      transport := .playing, receivedAt := 1000 } 1500).2 rfl
  rw [h]
  dsimp only
  rw [show ((0 : ℚ) + (1500 - 1000) / 1000 * (120 / 60)) = 1 from by norm_num]
  rw [jsFmod_nonneg_lt 1 4 (by norm_num) (by norm_num) (by norm_num)]

/-- C5: for the fallback virtual clock, while playing with unchanged
tempo the beat advances by exactly elapsed-seconds · tempo/60; while not
playing the beat is frozen at baseBeat; entering playing captures the
current beat as baseBeat and records startAt := now; leaving playing
freezes baseBeat at the last computed beat (the beat read thereafter stays
that value). Time is in milliseconds, so an elapsed interval d ms is d/1000
seconds; over exact rationals the identity is exact, hence within any
float tolerance. -/
theorem fallback_beat_advance :
    (∀ (s : Fallback) (t d : ℚ), 0 ≤ d → s.transport = .playing →
      s.getBeat (t + d) - s.getBeat t = (d / 1000) * (s.tempo / 60)) ∧
    (∀ (s : Fallback) (now : ℚ), s.transport ≠ .playing →
      s.getBeat now = s.baseBeat) ∧
    (∀ (s : Fallback) (now : ℚ), s.transport ≠ .playing →
      (s.setTransport .playing now).baseBeat = s.getBeat now ∧
      (s.setTransport .playing now).startAt = now ∧
      (s.setTransport .playing now).transport = .playing) ∧
    (∀ (s : Fallback) (now : ℚ) (next : Transport),
      s.transport = .playing → next ≠ .playing →
      (s.setTransport next now).baseBeat = s.getBeat now ∧
      (s.setTransport next now).transport = next ∧
      ∀ u : ℚ, (s.setTransport next now).getBeat u = s.getBeat now) := by
  refine ⟨?_, ?_, ?_, ?_⟩
  · intro s t d _ hp
    simp only [Fallback.getBeat, hp]
    simp only [ne_eq, not_true_eq_false, if_false]
    ring
  · intro s now h
    simp [Fallback.getBeat, h]
  · intro s now h
    unfold Fallback.setTransport
    rw [if_neg (Ne.symm h), if_pos rfl]
    exact ⟨rfl, rfl, rfl⟩
  · intro s now next hp hn
    have hne : next ≠ s.transport := by rw [hp]; exact hn
    unfold Fallback.setTransport
    rw [if_neg hne, if_neg hn]
    refine ⟨rfl, rfl, ?_⟩
    intro u
    simp [Fallback.getBeat, hn]

/-- Witness for C5 at concrete inputs: a playing clock at tempo 120 gains
exactly 1 beat over 500 ms, a stopped clock reads baseBeat, entering
playing anchors baseBeat and startAt, leaving playing freezes the beat. -/
theorem fallback_beat_advance_witness :
    (let s : Fallback :=
      { tempo := 120, quantum := 4, transport := .playing, baseBeat := 2,
        startAt := 0 }
     s.getBeat (100 + 500) - s.getBeat 100 = (500 / 1000) * (120 / 60)) ∧
    (let s : Fallback :=
      { tempo := 120, quantum := 4, transport := .stopped, baseBeat := 7,
        startAt := 0 }
     s.getBeat 12345 = 7 ∧
     (s.setTransport .playing 50).baseBeat = 7 ∧
     (s.setTransport .playing 50).startAt = 50) := by
  constructor
  · exact (fallback_beat_advance.1
      { tempo := 120, quantum := 4, transport := .playing, baseBeat := 2,
        startAt := 0 } 100 500 (by norm_num) rfl)
  · refine ⟨fallback_beat_advance.2.1 _ 12345 (by decide), ?_, ?_⟩
    · exact ((fallback_beat_advance.2.2.1 _ 50 (by decide)).1)
    · exact ((fallback_beat_advance.2.2.1 _ 50 (by decide)).2.1)

/-- Counterexample for C4 as stated: the native adapter passes an
externally supplied phase reading through unchanged, so with tempo 120 > 0
and quantum 4 ≥ 1 but a reported phase of 3 at beat 0 the returned state
violates phase == beat mod quantum. -/
theorem clock_phase_invariant_cex :
    (0 < (abletonGetState
      { tempo := some 120, quantum := some 4, beat := some 0,
        phase := some 3, numPeers := some 1 }).tempo) ∧
    (1 ≤ (abletonGetState
      { tempo := some 120, quantum := some 4, beat := some 0,
        phase := some 3, numPeers := some 1 }).quantum) ∧
    (abletonGetState
      { tempo := some 120, quantum := some 4, beat := some 0,
        phase := some 3, numPeers := some 1 }).phase ≠
      jsFmod
        (abletonGetState
          { tempo := some 120, quantum := some 4, beat := some 0,
            phase := some 3, numPeers := some 1 }).beat
        (abletonGetState
          { tempo := some 120, quantum := some 4, beat := some 0,
            phase := some 3, numPeers := some 1 }).quantum := by
  have h0 : jsFmod (0 : ℚ) 4 = 0 :=
    jsFmod_nonneg_lt 0 4 (by norm_num) (by norm_num) (by norm_num)
  dsimp only [abletonGetState, Option.getD]
  refine ⟨by norm_num, by norm_num, ?_⟩
  rw [h0]
  norm_num

/-- C4 amended: phase == beat mod quantum holds at every tick of the
fallback virtual clock (for every tempo > 0 and quantum ≥ 1); for the
native adapter it holds whenever the external capability supplies no phase
reading (the default is then beat mod quantum), while a supplied phase is
passed through unverified. -/
theorem clock_phase_invariant :
    (∀ (s : Fallback) (now : ℚ), 0 < s.tempo → 1 ≤ s.quantum →
      (s.getState now).phase =
        jsFmod (s.getState now).beat (s.getState now).quantum) ∧
    (∀ r : LinkReadings, r.phase = none →
      (abletonGetState r).phase =
        jsFmod (abletonGetState r).beat (abletonGetState r).quantum) := by
  constructor
  · intro s now _ _
    simp [Fallback.getState]
  · intro r h
    simp [abletonGetState, h]

/-- Witness for C4 (amended): concrete fallback state and a native reading
set with no phase reported. -/
theorem clock_phase_invariant_witness :
    ((Fallback.getState
        { tempo := 120, quantum := 4, transport := .playing, baseBeat := 1,
          startAt := 0 } 250).phase =
      jsFmod
        (Fallback.getState
          { tempo := 120, quantum := 4, transport := .playing, baseBeat := 1,
            startAt := 0 } 250).beat 4) ∧
    ((abletonGetState
        { tempo := some 100, quantum := some 4, beat := some 9,
          phase := none, numPeers := some 2 }).phase =
      jsFmod 9 4) := by
  constructor
  · exact clock_phase_invariant.1
      { tempo := 120, quantum := 4, transport := .playing, baseBeat := 1,
        startAt := 0 } 250 (by decide) (by decide)
  · exact clock_phase_invariant.2
      { tempo := some 100, quantum := some 4, beat := some 9,
        phase := none, numPeers := some 2 } rfl

/-- Counterexample for C7 as stated: on the WAN inbound overwrite path the
quantum is passed to the engine without rounding, so a relayed quantum of
5/2 leaves the fallback engine holding the non-integer quantum 5/2
(denominator 2). -/
theorem clamp_rounding_cex :
    ((handleRelayMessage .peer
        { type := "state", tempo := none, beat := none, phase := none,
          quantum := some (.fin (5/2)), transport := some .stopped }
        (Fallback.init 0) none .stopped 0).1).quantum = 5/2 ∧
    (5 : ℚ)/2 ≠ ((⌊(5 : ℚ)/2⌋ : ℤ) : ℚ) := by
  constructor
  · unfold handleRelayMessage
    rw [if_pos ⟨rfl, rfl⟩]
    dsimp only [safeNumber, Option.getD, Fallback.init, Fallback.setTempo,
      Fallback.setQuantum]
    unfold Fallback.setTransport
    rw [if_pos rfl]
    dsimp only
    rw [max_eq_right (by norm_num : (1 : ℚ) ≤ 5/2)]
  · have hf : ⌊(5 : ℚ)/2⌋ = 2 := by norm_num
    rw [hf]
    norm_num

/-- C7 amended: the fallback Clock Engine's setTempo clamps the applied
tempo to ≥ 20 and its setQuantum clamps the applied quantum to ≥ 1, on
every path (the clamps live in the setters); but rounding of the quantum
to an integer happens only in the local `set` command handler — the WAN
inbound overwrite forwards the quantum unrounded, so only the ≥ 1 clamp
applies there. The local `set` path also forwards a finite tempo to the
clamping setter. -/
theorem clamp_and_rounding :
    (∀ (s : Fallback) (v : ℚ),
      (s.setTempo v).tempo = max 20 v ∧ 20 ≤ (s.setTempo v).tempo) ∧
    (∀ (s : Fallback) (v : ℚ),
      (s.setQuantum v).quantum = max 1 v ∧ 1 ≤ (s.setQuantum v).quantum) ∧
    (∀ (eng : Fallback) (tr : Transport) (m : SetMsg) (now : ℚ) (q : ℚ),
      m.quantum = some (.fin q) →
      ∃ z : ℤ, ((handleSet eng tr m now).1).quantum = (z : ℚ) ∧ 1 ≤ z) ∧
    (∀ (eng : Fallback) (tr : Transport) (m : SetMsg) (now : ℚ) (v : ℚ),
      m.tempo = some (.fin v) →
      ((handleSet eng tr m now).1).tempo = max 20 v) ∧
    (∀ (m : RelayMsg) (eng : Fallback) (wan : Option WanState)
        (tr : Transport) (now : ℚ), m.type = "state" →
      ((handleRelayMessage .peer m eng wan tr now).1).quantum =
        max 1 (safeNumber m.quantum 4)) := by
  have hTrQ : ∀ (s : Fallback) (next : Transport) (now : ℚ),
      (s.setTransport next now).quantum = s.quantum := by
    intro s next now
    unfold Fallback.setTransport
    split
    · rfl
    · split <;> rfl
  have hTrT : ∀ (s : Fallback) (next : Transport) (now : ℚ),
      (s.setTransport next now).tempo = s.tempo := by
    intro s next now
    unfold Fallback.setTransport
    split
    · rfl
    · split <;> rfl
  refine ⟨?_, ?_, ?_, ?_, ?_⟩
  · intro s v
    exact ⟨rfl, le_max_left 20 v⟩
  · intro s v
    exact ⟨rfl, le_max_left 1 v⟩
  · intro eng tr m now q hq
    refine ⟨max 1 (jsRound q), ?_, le_max_left 1 _⟩
    cases htr : m.transport with
    | some next =>
      cases hte : m.tempo with
      | some n =>
        cases n <;>
          simp [handleSet, hq, htr, hte, hTrQ, Fallback.setQuantum,
            Fallback.setTempo, le_max_left]
      | none =>
        simp [handleSet, hq, htr, hte, hTrQ, Fallback.setQuantum,
          le_max_left]
    | none =>
      cases hte : m.tempo with
      | some n =>
        cases n <;>
          simp [handleSet, hq, htr, hte, Fallback.setQuantum,
            Fallback.setTempo, le_max_left]
      | none =>
        simp [handleSet, hq, htr, hte, Fallback.setQuantum, le_max_left]
  · intro eng tr m now v hv
    cases htr : m.transport with
    | some next =>
      cases hqu : m.quantum with
      | some n =>
        cases n <;>
          simp [handleSet, hv, htr, hqu, hTrT, Fallback.setQuantum,
            Fallback.setTempo]
      | none =>
        simp [handleSet, hv, htr, hqu, hTrT, Fallback.setTempo]
    | none =>
      cases hqu : m.quantum with
      | some n =>
        cases n <;>
          simp [handleSet, hv, htr, hqu, Fallback.setQuantum,
            Fallback.setTempo]
      | none =>
        simp [handleSet, hv, htr, hqu, Fallback.setTempo]
  · intro m eng wan tr now hty
    simp [handleRelayMessage, hty, hTrQ, Fallback.setQuantum]

/-- Witness for C7 (amended): the clamps at concrete values, the local set
path rounding 5/2 up to the integer 3, and the WAN path leaving 5/2
unrounded. -/
theorem clamp_and_rounding_witness :
    ((Fallback.init 0).setTempo 5).tempo = 20 ∧
    ((Fallback.init 0).setQuantum (1/2)).quantum = 1 ∧
    (∃ z : ℤ,
      ((handleSet (Fallback.init 0) .stopped
          { tempo := none, quantum := some (.fin (5/2)), transport := none }
          0).1).quantum = (z : ℚ) ∧ 1 ≤ z) ∧
    ((handleRelayMessage .peer
        { type := "state", tempo := none, beat := none, phase := none,
          quantum := some (.fin (5/2)), transport := some .stopped }
        (Fallback.init 0) none .stopped 0).1).quantum =
      max 1 ((5 : ℚ)/2) := by
  refine ⟨?_, ?_, ?_, ?_⟩
  · have h := (clamp_and_rounding.1 (Fallback.init 0) 5).1
    rw [h, max_eq_left (by norm_num : (5 : ℚ) ≤ 20)]
  · have h := (clamp_and_rounding.2.1 (Fallback.init 0) (1/2)).1
    rw [h, max_eq_left (by norm_num : (1 : ℚ)/2 ≤ 1)]
  · exact clamp_and_rounding.2.2.1 (Fallback.init 0) .stopped
      { tempo := none, quantum := some (.fin (5/2)), transport := none }
      0 (5/2) rfl
  · exact clamp_and_rounding.2.2.2.2
      { type := "state", tempo := none, beat := none, phase := none,
        quantum := some (.fin (5/2)), transport := some .stopped }
      (Fallback.init 0) none .stopped 0 rfl

/-- Counterexample for C9 as stated: with the native capability
initialized the health body's link field is the string "abletonlink", not
"native". -/
theorem health_link_cex :
    handleHttp "/health" true =
      (200, .health { status := "ok", link := "abletonlink" }) ∧
    "abletonlink" ≠ "native" := by
  decide

/-- C9 amended: GET /health always answers 200 with body exactly
{status:"ok", link:"abletonlink"|"fallback"} — "abletonlink" when the
native clock capability initialized, "fallback" otherwise; any other URL
is a 404. -/
theorem health_endpoint (b : Bool) (url : String) :
    handleHttp "/health" b =
      (200, .health
        { status := "ok", link := if b then "abletonlink" else "fallback" }) ∧
    (url ≠ "/health" → handleHttp url b = (404, .notFound)) := by
  constructor
  · simp [handleHttp]
  · intro h
    simp [handleHttp, h]

/-- Witness for C9 (amended): both capability outcomes and a non-health
URL. -/
theorem health_endpoint_witness :
    handleHttp "/health" false =
      (200, .health { status := "ok", link := "fallback" }) ∧
    handleHttp "/other" true = (404, .notFound) := by
  refine ⟨?_, ?_⟩
  · have h := (health_endpoint false "/other").1
    simpa using h
  · exact (health_endpoint true "/other").2 (by decide)

/-- C10: a relay `state` message received by a peer-role coordinator has
every missing or non-finite numeric field defaulted (tempo 120, quantum 4,
beat 0, phase beat mod quantum) and a missing transport defaulted to
playing; the defaulted values are pushed into the Clock Engine through its
setters (setTempo, setQuantum, setTransport, in that order) and become the
extrapolation cache with receivedAt := now; a master-role coordinator, and
any non-state message, changes nothing. -/
theorem relay_state_defaults :
    (∀ (m : RelayMsg) (eng : Fallback) (wan : Option WanState)
        (tr : Transport) (now : ℚ),
      handleRelayMessage .master m eng wan tr now = (eng, wan, tr)) ∧
    (∀ (role : SyncRole) (m : RelayMsg) (eng : Fallback)
        (wan : Option WanState) (tr : Transport) (now : ℚ),
      m.type ≠ "state" → handleRelayMessage role m eng wan tr now = (eng, wan, tr)) ∧
    (∀ (m : RelayMsg) (eng : Fallback) (wan : Option WanState)
        (tr : Transport) (now : ℚ), m.type = "state" →
      handleRelayMessage .peer m eng wan tr now =
        (((eng.setTempo (safeNumber m.tempo 120)).setQuantum
            (safeNumber m.quantum 4)).setTransport (m.transport.getD .playing) now,
         some { tempo := safeNumber m.tempo 120, beat := safeNumber m.beat 0,
                phase := safeNumber m.phase
                  (jsFmod (safeNumber m.beat 0) (safeNumber m.quantum 4)),
                quantum := safeNumber m.quantum 4,
                transport := m.transport.getD .playing, receivedAt := now },
         m.transport.getD .playing)) ∧
    (∀ fb : ℚ, safeNumber none fb = fb ∧ safeNumber (some .posInf) fb = fb ∧
      safeNumber (some .negInf) fb = fb) ∧
    (∀ (q fb : ℚ), safeNumber (some (.fin q)) fb = q) := by
  refine ⟨?_, ?_, ?_, ?_, ?_⟩
  · intro m eng wan tr now
    simp [handleRelayMessage]
  · intro role m eng wan tr now h
    simp [handleRelayMessage, h]
  · intro m eng wan tr now h
    simp [handleRelayMessage, h]
  · intro fb
    exact ⟨rfl, rfl, rfl⟩
  · intro q fb
    rfl

/-- Witness for C10: a fully-absent state message (with a beat relayed as
an overflowing literal, i.e. infinity) received by a peer defaults every
field and re-anchors the cache at the arrival time 777. -/
theorem relay_state_defaults_witness :
    handleRelayMessage .peer
      { type := "state", tempo := none, beat := some .posInf, phase := none,
        quantum := none, transport := none }
      (Fallback.init 0) none .stopped 777 =
      ((((Fallback.init 0).setTempo 120).setQuantum 4).setTransport .playing 777,
       some { tempo := 120, beat := 0, phase := 0, quantum := 4,
              transport := .playing, receivedAt := 777 },
       .playing) ∧
    handleRelayMessage .master
      { type := "state", tempo := none, beat := some .posInf, phase := none,
        quantum := none, transport := none }
      (Fallback.init 0) none .stopped 777 =
      (Fallback.init 0, none, .stopped) := by
  constructor
  · have h := relay_state_defaults.2.2.1
      { type := "state", tempo := none, beat := some .posInf, phase := none,
        quantum := none, transport := none }
      (Fallback.init 0) none .stopped 777 rfl
    rw [h]
    have h0 : jsFmod (0 : ℚ) 4 = 0 :=
      jsFmod_nonneg_lt 0 4 (by norm_num) (by norm_num) (by norm_num)
    dsimp only [safeNumber, Option.getD]
    rw [h0]
  · exact relay_state_defaults.1
      { type := "state", tempo := none, beat := some .posInf, phase := none,
        quantum := none, transport := none }
      (Fallback.init 0) none .stopped 777

/-- Helper: closeWan leaves the invariant trivially satisfied. -/
theorem bridgeInv_closeWan (s : BridgeNet) : BridgeInv (closeWan s) := by
  refine ⟨by simp [closeWan], by simp [closeWan], by simp [closeWan]⟩

/-- Helper: connectWan always restores the invariant (it tears everything
down first). -/
theorem bridgeInv_connectWan (s : BridgeNet) : BridgeInv (connectWan s) := by
  unfold connectWan
  split
  · exact bridgeInv_closeWan s
  · exact ⟨by simp [closeWan], by simp [closeWan], by simp [closeWan]⟩

/-- Helper: every relay lifecycle step preserves the invariant. -/
theorem bridgeInv_step (s : BridgeNet) (e : BridgeEvent) (h : BridgeInv s) :
    BridgeInv (bridgeStep s e) := by
  cases e with
  | socketClosed =>
    show BridgeInv (scheduleReconnect s)
    unfold scheduleReconnect
    split
    · exact ⟨by simp, by simp, h.2.2⟩
    · exact h
  | socketError =>
    show BridgeInv (scheduleReconnect s)
    unfold scheduleReconnect
    split
    · exact ⟨by simp, by simp, h.2.2⟩
    · exact h
  | timerFired =>
    show BridgeInv (fireReconnect s)
    unfold fireReconnect
    split
    · exact h
    · exact bridgeInv_connectWan _
  | configure m =>
    exact bridgeInv_connectWan _

/-- Helper: the invariant holds along every run. -/
theorem bridgeInv_run (s : BridgeNet) (es : List BridgeEvent)
    (h : BridgeInv s) : BridgeInv (bridgeRun s es) := by
  induction es generalizing s with
  | nil => exact h
  | cons e rest ih => exact ih _ (bridgeInv_step s e h)

/-- C6: from the initial coordinator state, after any event sequence there
is at most one pending reconnect timer (always with the fixed 2000 ms
delay) and at most one outbound relay socket; a close/error while a timer
is pending changes nothing (no extra timer or socket); a close/error with
no pending timer schedules exactly one 2000 ms timer; and connectWan —
hence also an explicit reconfigure — cancels any pending timer before any
new socket is opened. -/
theorem reconnect_single_timer :
    (∀ (apiUrl masterKey : String) (es : List BridgeEvent),
      BridgeInv (bridgeRun (BridgeNet.init apiUrl masterKey) es)) ∧
    (∀ s : BridgeNet, s.timers ≠ [] →
      bridgeStep s .socketClosed = s ∧ bridgeStep s .socketError = s) ∧
    (∀ s : BridgeNet, s.timers = [] →
      (bridgeStep s .socketClosed).timers = [2000] ∧
      (bridgeStep s .socketClosed).sockets = s.sockets ∧
      (bridgeStep s .socketError).timers = [2000]) ∧
    (∀ s : BridgeNet, (connectWan s).timers = []) ∧
    (∀ (s : BridgeNet) (m : ConfigureMsg), (handleConfigure s m).timers = []) := by
  have hcw : ∀ s : BridgeNet, (connectWan s).timers = [] := by
    intro s
    unfold connectWan
    split
    · simp [closeWan]
    · simp [closeWan]
  refine ⟨?_, ?_, ?_, hcw, ?_⟩
  · intro apiUrl masterKey es
    refine bridgeInv_run _ es ⟨?_, ?_, ?_⟩ <;> simp [BridgeNet.init]
  · intro s h
    constructor <;>
      · show scheduleReconnect s = s
        unfold scheduleReconnect
        rw [if_neg h]
  · intro s h
    refine ⟨?_, ?_, ?_⟩
    · show (scheduleReconnect s).timers = [2000]
      unfold scheduleReconnect
      rw [if_pos h]
    · show (scheduleReconnect s).sockets = s.sockets
      unfold scheduleReconnect
      rw [if_pos h]
    · show (scheduleReconnect s).timers = [2000]
      unfold scheduleReconnect
      rw [if_pos h]
  · intro s m
    exact hcw (applyConfigure s m)

/-- Witness for C6: a concrete run — configure into WAN mode, two socket
closes in a row, then the timer firing — ends with no pending timer, one
socket, and the middle close was a no-op. -/
theorem reconnect_single_timer_witness :
    (let cfg : ConfigureMsg :=
      { room := some "studio-1", role := some .master, mode := some .LINK_WAN,
        apiUrl := none, masterKey := none }
     let s1 := bridgeRun (BridgeNet.init "ws://a" "k")
       [.configure cfg, .socketClosed]
     BridgeInv s1 ∧ s1.timers = [2000] ∧ bridgeStep s1 .socketClosed = s1 ∧
       (bridgeStep s1 .timerFired).timers = [] ∧
       (bridgeStep s1 .timerFired).sockets = 1) := by
  intro cfg s1
  have h1 : s1.timers = [2000] := by decide
  refine ⟨reconnect_single_timer.1 "ws://a" "k" [.configure cfg, .socketClosed],
    h1, (reconnect_single_timer.2.1 s1 (by rw [h1]; decide)).1, by decide, by decide⟩

/-! ### Association-list lemmas -/

section AList

variable {κ α : Type} [DecidableEq κ]

theorem alGet_alSet (l : List (κ × α)) (k k' : κ) (v : α) :
    alGet (alSet l k v) k' = if k = k' then some v else alGet l k' := by
  induction l with
  | nil =>
    by_cases h : k = k' <;> simp [alSet, alGet, h]
  | cons p rest ih =>
    obtain ⟨pk, pv⟩ := p
    by_cases hpk : pk = k
    · subst hpk
      by_cases h : pk = k' <;> simp [alSet, alGet, h]
    · by_cases h : pk = k'
      · subst h
        have hk : ¬ k = pk := fun he => hpk he.symm
        simp [alSet, alGet, hpk, hk]
      · simp [alSet, alGet, hpk, h, ih]

theorem alGet_eq_none_of_not_mem (l : List (κ × α)) (k : κ)
    (h : k ∉ l.map Prod.fst) : alGet l k = none := by
  induction l with
  | nil => rfl
  | cons p rest ih =>
    obtain ⟨pk, pv⟩ := p
    simp only [List.map_cons, List.mem_cons] at h
    push_neg at h
    have : ¬ pk = k := fun he => h.1 he.symm
    simp [alGet, this, ih h.2]

theorem mem_keys_of_alGet (l : List (κ × α)) (k : κ) (v : α)
    (h : alGet l k = some v) : k ∈ l.map Prod.fst := by
  by_contra hk
  rw [alGet_eq_none_of_not_mem l k hk] at h
  exact Option.noConfusion h

theorem alGet_alRemove (l : List (κ × α)) (k k' : κ)
    (hnd : (l.map Prod.fst).Nodup) :
    alGet (alRemove l k) k' = if k = k' then none else alGet l k' := by
  induction l with
  | nil =>
    by_cases h : k = k' <;> simp [alRemove, alGet, h]
  | cons p rest ih =>
    obtain ⟨pk, pv⟩ := p
    simp only [List.map_cons, List.nodup_cons] at hnd
    by_cases hpk : pk = k
    · subst hpk
      by_cases h : pk = k'
      · subst h
        simp [alRemove, alGet, alGet_eq_none_of_not_mem rest pk hnd.1]
      · simp [alRemove, alGet, h]
    · by_cases h : k = k'
      · subst h
        have : ¬ pk = k := hpk
        simp [alRemove, alGet, hpk, this, ih hnd.2]
      · by_cases h2 : pk = k'
        · subst h2
          simp [alRemove, alGet, hpk, h]
        · simp [alRemove, alGet, hpk, h, h2, ih hnd.2]

theorem mem_keys_alSet (l : List (κ × α)) (k : κ) (v : α) (x : κ) :
    x ∈ (alSet l k v).map Prod.fst ↔ x ∈ l.map Prod.fst ∨ x = k := by
  induction l with
  | nil => simp [alSet]
  | cons p rest ih =>
    obtain ⟨pk, pv⟩ := p
    by_cases hpk : pk = k
    · subst hpk
      simp [alSet]
      tauto
    · simp [alSet, hpk, ih]
      tauto

theorem nodup_keys_alSet (l : List (κ × α)) (k : κ) (v : α)
    (h : (l.map Prod.fst).Nodup) : ((alSet l k v).map Prod.fst).Nodup := by
  induction l with
  | nil => simp [alSet]
  | cons p rest ih =>
    obtain ⟨pk, pv⟩ := p
    simp only [List.map_cons, List.nodup_cons] at h
    by_cases hpk : pk = k
    · subst hpk
      have he : alSet ((pk, pv) :: rest) pk v = (pk, v) :: rest := by
        unfold alSet
        rw [if_pos rfl]
      rw [he]
      simp only [List.map_cons, List.nodup_cons]
      exact ⟨h.1, h.2⟩
    · simp only [alSet, if_neg hpk, List.map_cons, List.nodup_cons]
      refine ⟨?_, ih h.2⟩
      intro hmem
      rcases (mem_keys_alSet rest k v pk).1 hmem with hin | heq
      · exact h.1 hin
      · exact hpk heq

theorem keys_alRemove_sublist (l : List (κ × α)) (k : κ) :
    ((alRemove l k).map Prod.fst).Sublist (l.map Prod.fst) := by
  induction l with
  | nil => simp [alRemove]
  | cons p rest ih =>
    obtain ⟨pk, pv⟩ := p
    by_cases hpk : pk = k
    · simp only [alRemove, if_pos hpk, List.map_cons]
      exact (List.sublist_cons_self _ _)
    · simp only [alRemove, if_neg hpk, List.map_cons]
      exact ih.cons₂ pk

theorem nodup_keys_alRemove (l : List (κ × α)) (k : κ)
    (h : (l.map Prod.fst).Nodup) : ((alRemove l k).map Prod.fst).Nodup :=
  h.sublist (keys_alRemove_sublist l k)

end AList

theorem mem_setAdd (l : List ℕ) (x y : ℕ) :
    y ∈ setAdd l x ↔ y ∈ l ∨ y = x := by
  unfold setAdd
  split
  · constructor
    · exact fun h => Or.inl h
    · rintro (h | rfl)
      · exact h
      · assumption
  · simp

theorem nodup_setAdd (l : List ℕ) (x : ℕ) (h : l.Nodup) :
    (setAdd l x).Nodup := by
  unfold setAdd
  split
  · exact h
  · rename_i hx
    simpa [List.nodup_append] using ⟨h, fun hmem => hx hmem⟩

/-! ### removeFromRoom lemmas -/

theorem removeFromRoom_clients (s : ServerState) (id : ℕ) (ro : Option String) :
    (removeFromRoom s id ro).clients = s.clients := by
  unfold removeFromRoom
  cases ro with
  | none => rfl
  | some r =>
    dsimp only
    cases halg : alGet s.rooms r with
    | none => rfl
    | some mem =>
      dsimp only
      split <;> rfl

theorem removeFromRoom_roomsND (s : ServerState) (id : ℕ) (ro : Option String)
    (h : (s.rooms.map Prod.fst).Nodup) :
    (((removeFromRoom s id ro).rooms).map Prod.fst).Nodup := by
  unfold removeFromRoom
  cases ro with
  | none => exact h
  | some r =>
    dsimp only
    cases halg : alGet s.rooms r with
    | none => exact h
    | some mem =>
      dsimp only
      split
      · exact nodup_keys_alRemove _ _ h
      · exact nodup_keys_alSet _ _ _ h

theorem alGet_removeFromRoom (s : ServerState) (id : ℕ) (ro : Option String)
    (r' : String) (hnd : (s.rooms.map Prod.fst).Nodup) :
    alGet (removeFromRoom s id ro).rooms r' =
      if ro = some r' then
        match alGet s.rooms r' with
        | none => none
        | some mem => if mem.erase id = [] then none else some (mem.erase id)
      else alGet s.rooms r' := by
  unfold removeFromRoom
  cases ro with
  | none => simp
  | some r0 =>
    dsimp only
    cases halg : alGet s.rooms r0 with
    | none =>
      by_cases h : r0 = r'
      · subst h
        simp [halg]
      · simp [Option.some.injEq, h]
    | some mem =>
      dsimp only
      by_cases h : r0 = r'
      · subst h
        split
        · rename_i he
          rw [alGet_alRemove _ _ _ hnd, if_pos rfl]
          simp [halg, he]
        · rename_i he
          rw [alGet_alSet, if_pos rfl]
          simp [halg, he]
      · split
        · rw [alGet_alRemove _ _ _ hnd, if_neg h]
          simp [Option.some.injEq, h]
        · rw [alGet_alSet, if_neg h]
          simp [Option.some.injEq, h]

/-- Backward membership through removeFromRoom: a member of a room set
after the removal was a member before, and is not the removed socket when
the removal targeted that room. -/
theorem mem_removeFromRoom_back (s : ServerState) (id : ℕ) (ro : Option String)
    (r' : String) (mem' : List ℕ) (j : ℕ)
    (hnd : (s.rooms.map Prod.fst).Nodup)
    (hmnd : ∀ r mem, alGet s.rooms r = some mem → mem.Nodup)
    (h : alGet (removeFromRoom s id ro).rooms r' = some mem') (hj : j ∈ mem') :
    ∃ mem, alGet s.rooms r' = some mem ∧ j ∈ mem ∧ (ro = some r' → j ≠ id) := by
  rw [alGet_removeFromRoom s id ro r' hnd] at h
  by_cases hro : ro = some r'
  · rw [if_pos hro] at h
    cases halg : alGet s.rooms r' with
    | none => rw [halg] at h; exact absurd h (by simp)
    | some mem =>
      rw [halg] at h
      dsimp only at h
      by_cases he : mem.erase id = []
      · rw [if_pos he] at h; exact absurd h (by simp)
      · rw [if_neg he] at h
        have hmem' : mem' = mem.erase id := (Option.some.inj h).symm
        subst hmem'
        have hmnd' := hmnd r' mem halg
        have := (hmnd'.mem_erase_iff).1 hj
        exact ⟨mem, rfl, this.2, fun _ => this.1⟩
  · rw [if_neg hro] at h
    exact ⟨mem', h, hj, fun hc => absurd hc hro⟩

/-- Forward membership through removeFromRoom: a member distinct from the
removed socket survives the removal. -/
theorem mem_removeFromRoom_fwd (s : ServerState) (id : ℕ) (ro : Option String)
    (r' : String) (mem : List ℕ) (j : ℕ)
    (hnd : (s.rooms.map Prod.fst).Nodup)
    (hmnd : ∀ r mem, alGet s.rooms r = some mem → mem.Nodup)
    (h : alGet s.rooms r' = some mem) (hj : j ∈ mem)
    (hne : ro = some r' → j ≠ id) :
    ∃ mem', alGet (removeFromRoom s id ro).rooms r' = some mem' ∧ j ∈ mem' := by
  rw [alGet_removeFromRoom s id ro r' hnd]
  by_cases hro : ro = some r'
  · rw [if_pos hro, h]
    dsimp only
    have hjid : j ≠ id := hne hro
    have hmnd' := hmnd r' mem h
    have hjmem : j ∈ mem.erase id := (hmnd'.mem_erase_iff).2 ⟨hjid, hj⟩
    have hnonempty : mem.erase id ≠ [] := by
      intro hnil
      rw [hnil] at hjmem
      exact absurd hjmem (List.not_mem_nil j)
    rw [if_neg hnonempty]
    exact ⟨mem.erase id, rfl, hjmem⟩
  · rw [if_neg hro]
    exact ⟨mem, h, hj⟩

theorem removeFromRoom_memND (s : ServerState) (id : ℕ) (ro : Option String)
    (hnd : (s.rooms.map Prod.fst).Nodup)
    (hmnd : ∀ r mem, alGet s.rooms r = some mem → mem.Nodup) :
    ∀ r' mem', alGet (removeFromRoom s id ro).rooms r' = some mem' →
      mem'.Nodup := by
  intro r' mem' h
  rw [alGet_removeFromRoom s id ro r' hnd] at h
  by_cases hro : ro = some r'
  · rw [if_pos hro] at h
    cases halg : alGet s.rooms r' with
    | none => rw [halg] at h; exact absurd h (by simp)
    | some mem =>
      rw [halg] at h
      dsimp only at h
      by_cases he : mem.erase id = []
      · rw [if_pos he] at h; exact absurd h (by simp)
      · rw [if_neg he] at h
        have hmem' : mem' = mem.erase id := (Option.some.inj h).symm
        subst hmem'
        exact (hmnd r' mem halg).erase id
  · rw [if_neg hro] at h
    exact hmnd r' mem' h

/-! ### Server invariant preservation -/

theorem sinv_empty : SInv ServerState.empty :=
  ⟨List.nodup_nil, List.nodup_nil,
   fun _ _ h => Option.noConfusion h,
   fun _ _ _ h _ => Option.noConfusion h,
   fun _ _ _ h _ => Option.noConfusion h,
   fun _ _ h _ => Option.noConfusion h⟩

theorem handleState_fst (s : ServerState) (id : ℕ) (c : SyncClient)
    (m : StateMsg) (now : ℤ) : (handleState s id c m now).1 = s := by
  unfold handleState
  cases hr : c.room with
  | none => rfl
  | some r =>
    dsimp only
    repeat (first | rfl | split)

theorem handlePing_fst (s : ServerState) (id : ℕ) (sentAt : Option JsNum)
    (now : ℤ) : (handlePing s id sentAt now).1 = s := by
  unfold handlePing
  cases sentAt with
  | none => rfl
  | some n => cases n <;> rfl

theorem withClient_fst (s : ServerState) (id : ℕ)
    (k : SyncClient → ServerState × List (ℕ × OutMsg))
    (hk : ∀ c, (k c).1 = s) : (withClient s id k).1 = s := by
  unfold withClient
  cases alGet s.clients id with
  | none => rfl
  | some c => exact hk c

theorem sinv_connectSync (s : ServerState) (id : ℕ) (h : SInv s) :
    SInv (connectSync s id) := by
  unfold connectSync
  split
  · exact h
  · rename_i hnone
    have hid : alGet s.clients id = none := by
      cases halg : alGet s.clients id with
      | none => rfl
      | some c => rw [halg] at hnone; simp at hnone
    refine ⟨?_, h.roomsND, h.memND, ?_, ?_, ?_⟩
    · exact nodup_keys_alSet _ _ _ h.clientsND
    · intro id' c r h1 h2
      rw [alGet_alSet] at h1
      by_cases he : id = id'
      · rw [if_pos he] at h1
        have hcc : c = ⟨none, none, false⟩ := (Option.some.inj h1).symm
        rw [hcc] at h2
        exact Option.noConfusion h2
      · rw [if_neg he] at h1
        exact h.inRoom id' c r h1 h2
    · intro r mem id' h1 h2
      obtain ⟨c, hc1, hc2⟩ := h.roomOf r mem id' h1 h2
      refine ⟨c, ?_, hc2⟩
      rw [alGet_alSet]
      have hne : ¬ id = id' := by
        intro he
        subst he
        rw [hid] at hc1
        exact Option.noConfusion hc1
      rw [if_neg hne]
      exact hc1
    · intro id' c h1 h2
      rw [alGet_alSet] at h1
      by_cases he : id = id'
      · rw [if_pos he] at h1
        have hcc : c = ⟨none, none, false⟩ := (Option.some.inj h1).symm
        rw [hcc] at h2
        exact Bool.noConfusion h2
      · rw [if_neg he] at h1
        exact h.masterRole id' c h1 h2

theorem sinv_closeSync (s : ServerState) (id : ℕ) (h : SInv s) :
    SInv (closeSync s id) := by
  unfold closeSync
  cases hc : alGet s.clients id with
  | none => exact h
  | some c =>
    dsimp only
    have hcl : (removeFromRoom s id c.room).clients = s.clients :=
      removeFromRoom_clients s id c.room
    refine ⟨?_, ?_, ?_, ?_, ?_, ?_⟩
    · show ((alRemove (removeFromRoom s id c.room).clients id).map Prod.fst).Nodup
      rw [hcl]
      exact nodup_keys_alRemove _ _ h.clientsND
    · exact removeFromRoom_roomsND s id c.room h.roomsND
    · exact removeFromRoom_memND s id c.room h.roomsND h.memND
    · intro id' c' r h1 h2
      replace h1 :
          alGet (alRemove (removeFromRoom s id c.room).clients id) id' = some c' := h1
      rw [hcl, alGet_alRemove _ _ _ h.clientsND] at h1
      by_cases he : id = id'
      · rw [if_pos he] at h1
        exact Option.noConfusion h1
      · rw [if_neg he] at h1
        obtain ⟨mem, hm1, hm2⟩ := h.inRoom id' c' r h1 h2
        exact mem_removeFromRoom_fwd s id c.room r mem id' h.roomsND h.memND
          hm1 hm2 (fun _ hee => he hee.symm)
    · intro r mem' j h1 h2
      obtain ⟨mem, hm1, hm2, hmne⟩ :=
        mem_removeFromRoom_back s id c.room r mem' j h.roomsND h.memND h1 h2
      obtain ⟨cj, hc1, hc2⟩ := h.roomOf r mem j hm1 hm2
      have hjid : j ≠ id := by
        intro he
        subst he
        rw [hc] at hc1
        have hcc : c = cj := Option.some.inj hc1
        exact hmne (by rw [hcc]; exact hc2) rfl
      refine ⟨cj, ?_, hc2⟩
      show alGet (alRemove (removeFromRoom s id c.room).clients id) j = some cj
      rw [hcl, alGet_alRemove _ _ _ h.clientsND,
        if_neg (fun he => hjid he.symm)]
      exact hc1
    · intro id' c' h1 h2
      replace h1 :
          alGet (alRemove (removeFromRoom s id c.room).clients id) id' = some c' := h1
      rw [hcl, alGet_alRemove _ _ _ h.clientsND] at h1
      by_cases he : id = id'
      · rw [if_pos he] at h1
        exact Option.noConfusion h1
      · rw [if_neg he] at h1
        exact h.masterRole id' c' h1 h2

theorem sinv_handleJoin (cfgKey : String) (s : ServerState) (id : ℕ)
    (c : SyncClient) (m : JoinMsg) (hc : alGet s.clients id = some c)
    (h : SInv s) : SInv (handleJoin cfgKey s id c m).1 := by
  unfold handleJoin
  cases hmr : m.room with
  | none => exact h
  | some r =>
    cases hrr : m.role with
    | none => exact h
    | some rr =>
      dsimp only
      split
      · exact h
      · dsimp only
        have hcl : (removeFromRoom s id c.room).clients = s.clients :=
          removeFromRoom_clients s id c.room
        have hrnd : (((removeFromRoom s id c.room).rooms).map Prod.fst).Nodup :=
          removeFromRoom_roomsND s id c.room h.roomsND
        have hmnd1 : ∀ r2 mem2,
            alGet (removeFromRoom s id c.room).rooms r2 = some mem2 →
            mem2.Nodup :=
          removeFromRoom_memND s id c.room h.roomsND h.memND
        have hmem0 :
            ((alGet (removeFromRoom s id c.room).rooms r).getD []).Nodup := by
          cases halg : alGet (removeFromRoom s id c.room).rooms r with
          | none => simp
          | some mm => simpa using hmnd1 r mm halg
        refine ⟨?_, ?_, ?_, ?_, ?_, ?_⟩
        · show ((alSet (removeFromRoom s id c.room).clients id
            { room := some r, role := some rr,
              isMaster := decide (rr = "master") &&
                decide (m.masterKey = some cfgKey) }).map Prod.fst).Nodup
          rw [hcl]
          exact nodup_keys_alSet _ _ _ h.clientsND
        · exact nodup_keys_alSet _ _ _ hrnd
        · intro r2 mem2 h1
          replace h1 : alGet (alSet (removeFromRoom s id c.room).rooms r
            (setAdd ((alGet (removeFromRoom s id c.room).rooms r).getD []) id))
            r2 = some mem2 := h1
          rw [alGet_alSet] at h1
          by_cases hr2 : r = r2
          · rw [if_pos hr2] at h1
            have he2 : mem2 = setAdd
                ((alGet (removeFromRoom s id c.room).rooms r).getD []) id :=
              (Option.some.inj h1).symm
            subst he2
            exact nodup_setAdd _ _ hmem0
          · rw [if_neg hr2] at h1
            exact hmnd1 r2 mem2 h1
        · intro id' c2 r2 h1 h2
          replace h1 : alGet (alSet (removeFromRoom s id c.room).clients id
            { room := some r, role := some rr,
              isMaster := decide (rr = "master") &&
                decide (m.masterKey = some cfgKey) }) id' = some c2 := h1
          rw [hcl, alGet_alSet] at h1
          by_cases hii : id = id'
          · subst hii
            rw [if_pos rfl] at h1
            have hc2 : c2 =
                { room := some r, role := some rr,
                  isMaster := decide (rr = "master") &&
                    decide (m.masterKey = some cfgKey) } :=
              (Option.some.inj h1).symm
            subst hc2
            have hr2 : r = r2 := Option.some.inj h2
            subst hr2
            refine ⟨setAdd ((alGet (removeFromRoom s id c.room).rooms r).getD [])
              id, ?_, ?_⟩
            · show alGet (alSet (removeFromRoom s id c.room).rooms r
                (setAdd ((alGet (removeFromRoom s id c.room).rooms r).getD [])
                  id)) r = _
              rw [alGet_alSet, if_pos rfl]
            · exact (mem_setAdd _ _ _).2 (Or.inr rfl)
          · rw [if_neg hii] at h1
            obtain ⟨memO, hm1, hm2⟩ := h.inRoom id' c2 r2 h1 h2
            obtain ⟨memS, hx1, hx2⟩ := mem_removeFromRoom_fwd s id c.room r2
              memO id' h.roomsND h.memND hm1 hm2 (fun _ hee => hii hee.symm)
            by_cases hr2 : r = r2
            · subst hr2
              refine ⟨setAdd ((alGet (removeFromRoom s id c.room).rooms r).getD
                []) id, ?_, ?_⟩
              · show alGet (alSet (removeFromRoom s id c.room).rooms r
                  (setAdd ((alGet (removeFromRoom s id c.room).rooms r).getD
                    []) id)) r = _
                rw [alGet_alSet, if_pos rfl]
              · have hms : (alGet (removeFromRoom s id c.room).rooms r).getD []
                    = memS := by rw [hx1]; rfl
                exact (mem_setAdd _ _ _).2 (Or.inl (hms ▸ hx2))
            · refine ⟨memS, ?_, hx2⟩
              show alGet (alSet (removeFromRoom s id c.room).rooms r
                (setAdd ((alGet (removeFromRoom s id c.room).rooms r).getD [])
                  id)) r2 = some memS
              rw [alGet_alSet, if_neg hr2]
              exact hx1
        · intro r2 mem2 j h1 h2
          replace h1 : alGet (alSet (removeFromRoom s id c.room).rooms r
            (setAdd ((alGet (removeFromRoom s id c.room).rooms r).getD []) id))
            r2 = some mem2 := h1
          rw [alGet_alSet] at h1
          by_cases hr2 : r = r2
          · subst hr2
            rw [if_pos rfl] at h1
            have he2 : mem2 = setAdd
                ((alGet (removeFromRoom s id c.room).rooms r).getD []) id :=
              (Option.some.inj h1).symm
            subst he2
            rcases (mem_setAdd _ _ _).1 h2 with hjm | hji
            · cases halg : alGet (removeFromRoom s id c.room).rooms r with
              | none =>
                rw [halg] at hjm
                exact absurd hjm (List.not_mem_nil j)
              | some mm =>
                rw [halg] at hjm
                replace hjm : j ∈ mm := hjm
                obtain ⟨memB, hb1, hb2, hbne⟩ := mem_removeFromRoom_back s id
                  c.room r mm j h.roomsND h.memND halg hjm
                obtain ⟨cj, hcj1, hcj2⟩ := h.roomOf r memB j hb1 hb2
                have hjid : j ≠ id := by
                  intro he
                  subst he
                  rw [hc] at hcj1
                  have hcc : c = cj := Option.some.inj hcj1
                  exact hbne (by rw [hcc]; exact hcj2) rfl
                refine ⟨cj, ?_, hcj2⟩
                show alGet (alSet (removeFromRoom s id c.room).clients id
                  { room := some r, role := some rr,
                    isMaster := decide (rr = "master") &&
                      decide (m.masterKey = some cfgKey) }) j = some cj
                rw [hcl, alGet_alSet, if_neg (fun he => hjid he.symm)]
                exact hcj1
            · refine ⟨{ room := some r, role := some rr,
                        isMaster := decide (rr = "master") &&
                          decide (m.masterKey = some cfgKey) }, ?_, rfl⟩
              show alGet (alSet (removeFromRoom s id c.room).clients id
                { room := some r, role := some rr,
                  isMaster := decide (rr = "master") &&
                    decide (m.masterKey = some cfgKey) }) j = _
              rw [hji, hcl, alGet_alSet, if_pos rfl]
          · rw [if_neg hr2] at h1
            obtain ⟨memB, hb1, hb2, hbne⟩ := mem_removeFromRoom_back s id
              c.room r2 mem2 j h.roomsND h.memND h1 h2
            obtain ⟨cj, hcj1, hcj2⟩ := h.roomOf r2 memB j hb1 hb2
            have hjid : j ≠ id := by
              intro he
              subst he
              rw [hc] at hcj1
              have hcc : c = cj := Option.some.inj hcj1
              exact hbne (by rw [hcc]; exact hcj2) rfl
            refine ⟨cj, ?_, hcj2⟩
            show alGet (alSet (removeFromRoom s id c.room).clients id
              { room := some r, role := some rr,
                isMaster := decide (rr = "master") &&
                  decide (m.masterKey = some cfgKey) }) j = some cj
            rw [hcl, alGet_alSet, if_neg (fun he => hjid he.symm)]
            exact hcj1
        · intro id' c2 h1 h2
          replace h1 : alGet (alSet (removeFromRoom s id c.room).clients id
            { room := some r, role := some rr,
              isMaster := decide (rr = "master") &&
                decide (m.masterKey = some cfgKey) }) id' = some c2 := h1
          rw [hcl, alGet_alSet] at h1
          by_cases hii : id = id'
          · rw [if_pos hii] at h1
            have hc2 : c2 =
                { room := some r, role := some rr,
                  isMaster := decide (rr = "master") &&
                    decide (m.masterKey = some cfgKey) } :=
              (Option.some.inj h1).symm
            subst hc2
            replace h2 : (decide (rr = "master") &&
              decide (m.masterKey = some cfgKey)) = true := h2
            rw [Bool.and_eq_true] at h2
            have hmr : rr = "master" := of_decide_eq_true h2.1
            show some rr = some "master"
            rw [hmr]
          · rw [if_neg hii] at h1
            exact h.masterRole id' c2 h1 h2

theorem sinv_serverStep (cfgKey : String) (s : ServerState) (e : SEvent)
    (h : SInv s) : SInv (serverStep cfgKey s e) := by
  cases e with
  | connect id => exact sinv_connectSync s id h
  | disconnect id => exact sinv_closeSync s id h
  | message id msg now =>
    show SInv (handleSyncMessage cfgKey s id msg now).1
    cases msg with
    | malformed => exact h
    | join m =>
      show SInv (withClient s id fun c => handleJoin cfgKey s id c m).1
      unfold withClient
      cases hcx : alGet s.clients id with
      | none => exact h
      | some c => exact sinv_handleJoin cfgKey s id c m hcx h
    | state m =>
      have hfst : (handleSyncMessage cfgKey s id (.state m) now).1 = s :=
        withClient_fst s id _ (fun c => handleState_fst s id c m now)
      rw [hfst]
      exact h
    | ping sentAt =>
      have hfst : (handleSyncMessage cfgKey s id (.ping sentAt) now).1 = s :=
        withClient_fst s id _ (fun _ => handlePing_fst s id sentAt now)
      rw [hfst]
      exact h
    | other ty =>
      have hfst : (handleSyncMessage cfgKey s id (.other ty) now).1 = s :=
        withClient_fst s id _ (fun _ => rfl)
      rw [hfst]
      exact h

theorem sinv_foldl (cfgKey : String) (es : List SEvent) (s : ServerState)
    (h : SInv s) : SInv (es.foldl (serverStep cfgKey) s) := by
  induction es generalizing s with
  | nil => exact h
  | cons e rest ih => exact ih _ (sinv_serverStep cfgKey s e h)

/-- Every reachable Sync Plane Server state satisfies the structural
invariant. -/
theorem sinv_serverRun (cfgKey : String) (es : List SEvent) :
    SInv (serverRun cfgKey es) :=
  sinv_foldl cfgKey es ServerState.empty sinv_empty

/-- Helper: an accepted state message evaluates to the room broadcast. -/
theorem handleState_broadcast (s : ServerState) (id : ℕ) (c : SyncClient)
    (m : StateMsg) (now : ℤ) (R : String) (hR : c.room = some R)
    (hM : c.isMaster = true) (h1 : tempoValid m.tempo = true)
    (h2 : transportValid m.transport = true) (h3 : modeInvalid m.mode = false)
    (h4 : quantumInvalid m.quantum = false) (h5 : finiteInvalid m.beat = false)
    (h6 : finiteInvalid m.phase = false) :
    handleState s id c m now =
      (s, ((alGet s.rooms R).getD []).map
        (fun sock =>
          (sock, .stateB m.tempo m.transport m.mode m.quantum m.beat m.phase
            now))) := by
  simp [handleState, hR, hM, h1, h2, h3, h4, h5, h6]

/-- Helper: a rejected state message evaluates to a single error reply to
the sender and leaves the state untouched. -/
theorem handleState_error (s : ServerState) (id : ℕ) (c : SyncClient)
    (m : StateMsg) (now : ℤ) (hacc : stateAccepted c m = false) :
    ∃ e, handleState s id c m now = (s, [(id, .error e)]) := by
  unfold handleState
  cases hroom : c.room with
  | none => exact ⟨"not joined", rfl⟩
  | some R =>
    dsimp only
    cases hIsM : c.isMaster with
    | false => exact ⟨"not authorized", by simp [hIsM]⟩
    | true =>
      cases h1 : tempoValid m.tempo with
      | false => exact ⟨"invalid tempo", by simp [hIsM, h1]⟩
      | true =>
        cases h2 : transportValid m.transport with
        | false => exact ⟨"invalid transport", by simp [hIsM, h1, h2]⟩
        | true =>
          cases h3 : modeInvalid m.mode with
          | true => exact ⟨"invalid mode", by simp [hIsM, h1, h2, h3]⟩
          | false =>
            cases h4 : quantumInvalid m.quantum with
            | true => exact ⟨"invalid quantum", by simp [hIsM, h1, h2, h3, h4]⟩
            | false =>
              cases h5 : finiteInvalid m.beat with
              | true =>
                exact ⟨"invalid beat", by simp [hIsM, h1, h2, h3, h4, h5]⟩
              | false =>
                cases h6 : finiteInvalid m.phase with
                | true =>
                  exact ⟨"invalid phase",
                    by simp [hIsM, h1, h2, h3, h4, h5, h6]⟩
                | false =>
                  exfalso
                  simp [stateAccepted, hroom, hIsM, h1, h2, h3, h4, h5, h6]
                    at hacc

/-- C1: a valid `state` message from a sender that has joined room R and
is recognized as master is broadcast — carrying the sender's tempo,
transport and its mode, quantum, beat and phase verbatim (absent fields
stay absent), plus the server timestamp `at` — to exactly the members of
R (sender included, since a joined client is a member of its room's set),
and to no connection joined to any other room (room membership sets of
reachable states are disjoint). -/
theorem master_state_broadcast (cfgKey : String) (es : List SEvent) (id : ℕ)
    (c : SyncClient) (R : String) (m : StateMsg) (now : ℤ)
    (hc : alGet (serverRun cfgKey es).clients id = some c)
    (hR : c.room = some R) (hM : c.isMaster = true)
    (h1 : tempoValid m.tempo = true) (h2 : transportValid m.transport = true)
    (h3 : modeInvalid m.mode = false) (h4 : quantumInvalid m.quantum = false)
    (h5 : finiteInvalid m.beat = false) (h6 : finiteInvalid m.phase = false) :
    ∃ mem, alGet (serverRun cfgKey es).rooms R = some mem ∧ id ∈ mem ∧
      handleSyncMessage cfgKey (serverRun cfgKey es) id (.state m) now =
        (serverRun cfgKey es, mem.map (fun j =>
          (j, OutMsg.stateB m.tempo m.transport m.mode m.quantum m.beat
            m.phase now))) ∧
      ∀ (r' : String) (mem' : List ℕ),
        alGet (serverRun cfgKey es).rooms r' = some mem' → r' ≠ R →
        ∀ j ∈ mem', j ∉ mem := by
  have hinv := sinv_serverRun cfgKey es
  obtain ⟨mem, hmem, hid⟩ := hinv.inRoom id c R hc hR
  refine ⟨mem, hmem, hid, ?_, ?_⟩
  · show withClient (serverRun cfgKey es) id _ = _
    unfold withClient
    rw [hc]
    show handleState (serverRun cfgKey es) id c m now = _
    rw [handleState_broadcast _ id c m now R hR hM h1 h2 h3 h4 h5 h6, hmem]
    rfl
  · intro r' mem' hr' hne j hj hjmem
    obtain ⟨c1, hc1, hc1r⟩ := hinv.roomOf r' mem' j hr' hj
    obtain ⟨c2, hc2, hc2r⟩ := hinv.roomOf R mem j hmem hjmem
    rw [hc1] at hc2
    have hcc : c1 = c2 := Option.some.inj hc2
    rw [hcc, hc2r] at hc1r
    exact hne (Option.some.inj hc1r).symm

/-- Witness for C1: on the concrete trace, the master's state message in
"studio-1" is broadcast to that room's member set (containing the sender,
connection 0), and members of any other room receive nothing. -/
theorem master_state_broadcast_witness :
    ∃ mem, alGet (serverRun "sekrit" traceC1).rooms "studio-1" = some mem ∧
      0 ∈ mem ∧
      handleSyncMessage "sekrit" (serverRun "sekrit" traceC1) 0
        (.state { tempo := some (.fin 128), transport := some "playing",
                  mode := none, quantum := none, beat := none,
                  phase := none }) 99 =
        (serverRun "sekrit" traceC1, mem.map (fun j =>
          (j, OutMsg.stateB (some (.fin 128)) (some "playing") none none none
            none 99))) ∧
      ∀ (r' : String) (mem' : List ℕ),
        alGet (serverRun "sekrit" traceC1).rooms r' = some mem' →
        r' ≠ "studio-1" → ∀ j ∈ mem', j ∉ mem :=
  master_state_broadcast "sekrit" traceC1 0
    ⟨some "studio-1", some "master", true⟩ "studio-1"
    { tempo := some (.fin 128), transport := some "playing", mode := none,
      quantum := none, beat := none, phase := none } 99 (by decide) rfl rfl
    (by decide) (by decide) (by decide) (by decide) (by decide) (by decide)

/-- Counterexample for C2 as stated: the truthiness-guarded mode check
lets the empty-string mode through, so a joined master's state message
with mode "" is accepted and broadcast although the claim's validation
("mode one of LINK_LAN/LINK_WAN/MIDI when present") rejects it. -/
theorem state_validation_cex :
    alGet (serverRun "sekrit" traceC2).clients 0 =
      some ⟨some "studio-1", some "master", true⟩ ∧
    handleSyncMessage "sekrit" (serverRun "sekrit" traceC2) 0
      (.state { tempo := some (.fin 128), transport := some "playing",
                mode := some "", quantum := none, beat := none,
                phase := none }) 5 =
      (serverRun "sekrit" traceC2,
       [(0, .stateB (some (.fin 128)) (some "playing") (some "") none none
          none 5),
        (1, .stateB (some (.fin 128)) (some "playing") (some "") none none
          none 5)]) ∧
    claimStateValid ⟨some "studio-1", some "master", true⟩
      { tempo := some (.fin 128), transport := some "playing",
        mode := some "", quantum := none, beat := none, phase := none } =
      false := by
  refine ⟨by decide, by decide, by decide⟩

/-- C2 amended: a state message is accepted iff the sender has joined, is
recognized as master, tempo is present finite positive, transport is one
of stopped/playing/paused, mode — when present and non-empty (the falsy
empty string bypasses the check) — is one of LINK_LAN/LINK_WAN/MIDI,
quantum is finite positive when present, and beat and phase are finite
when present; on acceptance the message is broadcast to the sender's room,
on failure an error goes to the sender only and nothing is broadcast; a
peer-role sender is always rejected. -/
theorem state_authorization (cfgKey : String) (es : List SEvent) (id : ℕ)
    (c : SyncClient) (m : StateMsg) (now : ℤ)
    (hc : alGet (serverRun cfgKey es).clients id = some c) :
    (stateAccepted c m = false →
      ∃ e, handleSyncMessage cfgKey (serverRun cfgKey es) id (.state m) now =
        (serverRun cfgKey es, [(id, .error e)])) ∧
    (stateAccepted c m = true →
      ∃ R mem, c.room = some R ∧
        alGet (serverRun cfgKey es).rooms R = some mem ∧
        handleSyncMessage cfgKey (serverRun cfgKey es) id (.state m) now =
          (serverRun cfgKey es, mem.map (fun j =>
            (j, OutMsg.stateB m.tempo m.transport m.mode m.quantum m.beat
              m.phase now)))) ∧
    (c.role = some "peer" → stateAccepted c m = false) := by
  refine ⟨?_, ?_, ?_⟩
  · intro hacc
    obtain ⟨e, he⟩ := handleState_error (serverRun cfgKey es) id c m now hacc
    refine ⟨e, ?_⟩
    show withClient (serverRun cfgKey es) id _ = _
    unfold withClient
    rw [hc]
    show handleState (serverRun cfgKey es) id c m now = _
    rw [he]
  · intro hacc
    simp only [stateAccepted, Bool.and_eq_true] at hacc
    obtain ⟨⟨⟨⟨⟨⟨⟨hro, hM⟩, h1⟩, h2⟩, h3⟩, h4⟩, h5⟩, h6⟩ := hacc
    obtain ⟨R, hR⟩ := Option.isSome_iff_exists.1 hro
    have h3' : modeInvalid m.mode = false := by
      revert h3
      cases modeInvalid m.mode <;> simp
    have h4' : quantumInvalid m.quantum = false := by
      revert h4
      cases quantumInvalid m.quantum <;> simp
    have h5' : finiteInvalid m.beat = false := by
      revert h5
      cases finiteInvalid m.beat <;> simp
    have h6' : finiteInvalid m.phase = false := by
      revert h6
      cases finiteInvalid m.phase <;> simp
    obtain ⟨mem, hmem, _⟩ := (sinv_serverRun cfgKey es).inRoom id c R hc hR
    refine ⟨R, mem, hR, hmem, ?_⟩
    show withClient (serverRun cfgKey es) id _ = _
    unfold withClient
    rw [hc]
    show handleState (serverRun cfgKey es) id c m now = _
    rw [handleState_broadcast _ id c m now R hR hM h1 h2 h3' h4' h5' h6', hmem]
    rfl
  · intro hrole
    cases hM : c.isMaster with
    | false =>
      unfold stateAccepted
      rw [hM]
      simp
    | true =>
      have hmr := (sinv_serverRun cfgKey es).masterRole id c hc hM
      rw [hrole] at hmr
      exact absurd (Option.some.inj hmr) (by decide)

/-- Witness for C2 (amended): on the concrete trace the peer connection 1
sending a perfectly well-formed state message gets an error reply only. -/
theorem state_authorization_witness :
    ∃ e, handleSyncMessage "sekrit" (serverRun "sekrit" traceC2) 1
      (.state { tempo := some (.fin 128), transport := some "playing",
                mode := none, quantum := none, beat := none,
                phase := none }) 42 =
      (serverRun "sekrit" traceC2, [(1, OutMsg.error e)]) := by
  have h := state_authorization "sekrit" traceC2 1
    ⟨some "studio-1", some "peer", false⟩
    { tempo := some (.fin 128), transport := some "playing", mode := none,
      quantum := none, beat := none, phase := none } 42 (by decide)
  exact h.1 (h.2.2 rfl)

/-- Counterexample for C8 as stated: a frame whose string type is none of
join/state/ping gets no reply at all (the handler falls through), not an
error reply — while a malformed frame does get the error reply. -/
theorem unknown_type_cex :
    handleSyncMessage "sekrit" (serverRun "sekrit" traceC8) 0
      (.other "subscribe") 7 = (serverRun "sekrit" traceC8, []) ∧
    handleSyncMessage "sekrit" (serverRun "sekrit" traceC8) 0 .malformed 7 =
      (serverRun "sekrit" traceC8, [(0, .error "invalid message")]) := by
  exact ⟨by decide, by decide⟩

/-- C8 amended: a frame that is not valid JSON (or lacks a string type)
gets an `error` reply and changes nothing; a frame whose string type is
none of join/state/ping is silently ignored — no reply — and changes
nothing; in both cases the connection remains registered and its room
membership untouched (the state is returned unchanged). -/
theorem malformed_and_unknown_type (cfgKey : String) (s : ServerState)
    (id : ℕ) (now : ℤ) (ty : String) :
    handleSyncMessage cfgKey s id .malformed now =
      (s, [(id, .error "invalid message")]) ∧
    handleSyncMessage cfgKey s id (.other ty) now = (s, []) := by
  constructor
  · rfl
  · show withClient s id _ = _
    unfold withClient
    cases alGet s.clients id with
    | none => rfl
    | some c => rfl

end Meshroom
